import Mathlib

/-!
Verification development for the LLMLingua2 compression/evaluation pipeline
(`llmlingua_compressor.py`, `msmarco_evaluator.py`, `run_pipeline.py`).

Python strings are modelled as `List Char` (`PyStr`): Python indexes, slices
and measures strings by characters, so a character list is the direct model.
The helper functions `pyLower`, `pyStrip`, `splitWs`, `splitOnChar`,
`replaceList` model the Python `str` methods `lower`, `strip`, `split()`
(whitespace split), `split(sep)` and `replace` used by the source.
-/

/-- Model of a Python `str`: its sequence of characters. -/
abbrev PyStr := List Char

/-- Convert a Lean string literal to the `PyStr` model. -/
def pystr (s : String) : PyStr := s.data

/-- The whitespace test used by Python's `str.split()` / `str.strip()`
(restricted to the ASCII whitespace characters that can appear here). -/
def pyIsSpace (c : Char) : Bool :=
  c == ' ' || c == '\t' || c == '\n' || c == '\r' || c == '\x0b' || c == '\x0c'

/-- Python `str.lower()` (characterwise, which is exact for ASCII text). -/
def pyLower (l : PyStr) : PyStr := l.map Char.toLower

/-- Python `str.strip()`: drop leading and trailing whitespace. -/
def pyStrip (l : PyStr) : PyStr :=
  ((l.dropWhile pyIsSpace).reverse.dropWhile pyIsSpace).reverse

/-- Worker for `splitWs`; `cur` is the (reversed) word being accumulated. -/
def splitWsAcc : PyStr → PyStr → List PyStr
  | [], cur => if cur.isEmpty then [] else [cur.reverse]
  | c :: rest, cur =>
    if pyIsSpace c then
      if cur.isEmpty then splitWsAcc rest [] else cur.reverse :: splitWsAcc rest []
    else splitWsAcc rest (c :: cur)

/-- Python `str.split()` with no argument: split on runs of whitespace,
returning no empty tokens. -/
def splitWs (l : PyStr) : List PyStr := splitWsAcc l []

/-- Python `str.split(sep)` for a single-character separator `sep`
(used by the evaluator for `line.split(':')` and `output.split('\n')`). -/
def splitOnChar (sep : Char) : PyStr → List PyStr
  | [] => [[]]
  | c :: rest =>
    if c == sep then [] :: splitOnChar sep rest
    else
      match splitOnChar sep rest with
      | t :: ts => (c :: t) :: ts
      | [] => [[c]]

/-- Fuelled worker for `replaceList`; the fuel starts at the input length,
which suffices because each step consumes at least one character. -/
def replaceFuel (old new : PyStr) : Nat → PyStr → PyStr
  | 0, l => l
  | _ + 1, [] => []
  | f + 1, c :: rest =>
    if old ≠ [] && old.isPrefixOf (c :: rest) then
      new ++ replaceFuel old new f ((c :: rest).drop old.length)
    else c :: replaceFuel old new f rest

/-- Python `str.replace(old, new)`: replace the leftmost non-overlapping
occurrences of `old`.  (For `old = ""` this model returns the input
unchanged; the source only ever replaces non-empty separator strings.) -/
def replaceList (old new l : PyStr) : PyStr := replaceFuel old new l.length l

/-- Bool-valued substring test: does `pat` occur inside `l`?
(Model of Python's `pat in l` on strings.) -/
def occursB (pat l : PyStr) : Bool :=
  (List.range (l.length + 1)).any fun i => pat.isPrefixOf (l.drop i)

/-- Update-or-append insertion into an association list, modelling
assignment `d[k] = v` into a Python `dict` (insertion order preserved,
existing key updated in place). -/
def dictInsert {κ α : Type} [DecidableEq κ] : List (κ × α) → κ → α → List (κ × α)
  | [], k, v => [(k, v)]
  | (k', v') :: rest, k, v =>
    if k' = k then (k, v) :: rest else (k', v') :: dictInsert rest k v

/-- Key lookup in an association list, modelling Python `d[k]` / `k in d`. -/
def lookupAssoc {κ α : Type} [DecidableEq κ] : List (κ × α) → κ → Option α
  | [], _ => none
  | (k', v) :: rest, k => if k' = k then some v else lookupAssoc rest k

/-! ## ContextTracker (`llmlingua_compressor.py`, lines 15-65) -/

/-- The string `f" {separator} "` inserted between consecutive contexts by
`prepare_contexts_with_separators`. -/
def sepFull (sep : PyStr) : PyStr := ' ' :: (sep ++ [' '])

/-- The loop body of `ContextTracker.prepare_contexts_with_separators`:
`i` is the loop index, `combined` is `combined_text`, `pos` is
`current_pos`, and `poss` is `context_positions` (a dict keyed by the
context index `0, 1, ...`, modelled as the list of spans in index order). -/
def prepareLoop (sep : PyStr) :
    List PyStr → Nat → PyStr → Nat → List (Nat × Nat) → PyStr × List (Nat × Nat)
  | [], _, combined, _, poss => (combined, poss)
  | c :: rest, i, combined, pos, poss =>
    let combined1 := if i > 0 then combined ++ sepFull sep else combined
    let pos1 := if i > 0 then pos + (sepFull sep).length else pos
    let start := pos1
    let combined2 := combined1 ++ c
    let pos2 := pos1 + c.length
    prepareLoop sep rest (i + 1) combined2 pos2 (poss ++ [(start, pos2)])

/-- Model of `ContextTracker.prepare_contexts_with_separators`: join the contexts
with `f" {separator} "`, returning the combined text together with the
half-open character span of each context (spans listed in index order). -/
def prepare_contexts_with_separators (sep : PyStr) (contexts : List PyStr) :
    PyStr × List (Nat × Nat) :=
  prepareLoop sep contexts 0 [] 0 []

/-- Concatenation of a separator before each element (the tail part of a
separator join): `tailCat s [c₁, c₂] = s ++ c₁ ++ s ++ c₂`. -/
def tailCat (s : PyStr) : List PyStr → PyStr
  | [] => []
  | c :: rest => s ++ c ++ tailCat s rest

/-- The elements interleaved with the separator string: the reference
description of what `prepare_contexts_with_separators` builds. -/
def joinWith (s : PyStr) : List PyStr → PyStr
  | [] => []
  | c :: rest => c ++ tailCat s rest

/-- Closed form of all spans after the first, starting at offset `pos`,
with a separator of length `sepLen` before each element. -/
def tailSpans (sepLen : Nat) : Nat → List PyStr → List (Nat × Nat)
  | _, [] => []
  | pos, c :: rest =>
    (pos + sepLen, pos + sepLen + c.length) :: tailSpans sepLen (pos + sepLen + c.length) rest

/-- Closed form of the span list produced by
`prepare_contexts_with_separators`. -/
def fullSpans (sepLen : Nat) : List PyStr → List (Nat × Nat)
  | [] => []
  | c :: rest => (0, c.length) :: tailSpans sepLen c.length rest

/-- One entry of the `context_stats` dict built by
`ContextTracker.analyze_context_retention`.  The source field
`retention_ratio` (a Python float obtained from integer division) is
modelled exactly as the rational `retention_ratio_q`. -/
structure ContextStat where
  original_length : Nat
  retained_count : Nat
  retention_ratio_q : ℚ
deriving Repr, DecidableEq

/-- Model of `ContextTracker.analyze_context_retention`: clean the compressed text
(replace the separator by a space and strip), split it into words, and for
each context span count how many of the sliced original words occur
(case-insensitively, with repetition) among the compressed words.  The
`context_stats` dict keyed by `context_id` is modelled as the list whose
`k`-th entry corresponds to the `k`-th span. -/
def analyze_context_retention (sep : PyStr) (original_text compressed_text : PyStr)
    (context_positions : List (Nat × Nat)) : List ContextStat :=
  let cleaned_compressed := pyStrip (replaceList sep [' '] compressed_text)
  let compressed_words := splitWs cleaned_compressed
  context_positions.map fun se =>
    let original_context_text := (original_text.drop se.1).take (se.2 - se.1)
    let original_words := splitWs original_context_text
    let retained_count :=
      (original_words.filter fun w => (compressed_words.map pyLower).contains (pyLower w)).length
    { original_length := original_words.length
      retained_count := retained_count
      retention_ratio_q := (retained_count : ℚ) / ((max original_words.length 1 : Nat) : ℚ) }

/-! ## LLMLingua2Compressor (`llmlingua_compressor.py`, lines 110-310) -/

/-- A per-method configuration dict: which of the three mutually exclusive
keys (`rate`, `target_token`, `target_context`) are present, and their
values. -/
structure MethodConfig where
  rate : Option ℚ := none
  target_token : Option Int := none
  target_context : Option Int := none

/-- The shape of a call into the external `PromptCompressor.compress_prompt`
library function (one constructor per call site in
`compress_with_method`). -/
inductive LibCall where
  | rateCall (context : List PyStr) (question : PyStr) (rate : ℚ) (force_tokens : List PyStr)
  | targetTokenCall (context : List PyStr) (question : PyStr) (target_token : Int)
      (force_tokens : List PyStr)
  | targetContextCall (context : List PyStr) (question : PyStr) (target_context : Int)
      (force_tokens : List PyStr)

/-- The result dict returned by a successful library call (the fields of
`result` read by `compress_with_method`). -/
structure LibResult where
  compressed_prompt : PyStr
  rate : PyStr
  ratio : PyStr
  origin_tokens : Nat
  compressed_tokens : Nat

/-- The external compression library as a black box: a call either returns
a result dict or raises (an exception message). -/
def LibOracle : Type := LibCall → Except PyStr LibResult

/-- The body of the `try:` block of `compress_with_method` up to and
including the library call: select the call shape from whichever key the
method config contains.  When none of the three keys is present no branch
assigns `result`, so the subsequent read of `result` raises
`UnboundLocalError` — modelled as the error case. -/
def compressAttempt (lib : LibOracle) (sep : PyStr) (contexts : List PyStr)
    (query : PyStr) (cfg : MethodConfig) (combined : PyStr) : Except PyStr LibResult :=
  let force_tokens := [sep, ['\n'], ['.'], ['?']]
  match cfg.rate, cfg.target_token, cfg.target_context with
  | some r, _, _ => lib (.rateCall [combined] query r force_tokens)
  | none, some t, _ => lib (.targetTokenCall [combined] query t force_tokens)
  | none, none, some tc => lib (.targetContextCall contexts query tc force_tokens)
  | none, none, none =>
      .error (pystr "cannot access local variable 'result' where it is not associated with a value")

/-- The result dict built by `compress_with_method` (success and fallback
branches share this shape; `error` is present only in the fallback). -/
structure CompressDict where
  compressed_prompt : PyStr
  compression_rate : PyStr
  compression_ratio_str : PyStr
  original_tokens : Nat
  compressed_tokens : Nat
  context_analysis : List ContextStat
  error : Option PyStr := none

/-- Model of `LLMLingua2Compressor.compress_with_method`: prepare the combined
context, attempt the configured library call, and on success attach the
retention analysis; on any exception fall back to the uncompressed text
with the sentinel rate `"100%"`, ratio `"1.0x"`, equal token counts, an
empty analysis and the exception message under `error`. -/
def compress_with_method (lib : LibOracle) (sep : PyStr) (contexts : List PyStr)
    (query : PyStr) (cfg : MethodConfig) : CompressDict :=
  let prepared := prepare_contexts_with_separators sep contexts
  let combined_context := prepared.1
  let context_positions := prepared.2
  match compressAttempt lib sep contexts query cfg combined_context with
  | .ok result =>
      { compressed_prompt := result.compressed_prompt
        compression_rate := result.rate
        compression_ratio_str := result.ratio
        original_tokens := result.origin_tokens
        compressed_tokens := result.compressed_tokens
        context_analysis :=
          analyze_context_retention sep combined_context result.compressed_prompt
            context_positions
        error := none }
  | .error e =>
      { compressed_prompt := combined_context
        compression_rate := pystr "100%"
        compression_ratio_str := pystr "1.0x"
        original_tokens := (splitWs combined_context).length
        compressed_tokens := (splitWs combined_context).length
        context_analysis := []
        error := some e }

/-- The `dataset_config` keys read by `load_dataset`. -/
structure DatasetConfig where
  max_examples : Nat
  query_type : PyStr
  start : Nat

/-- One raw MS MARCO example, restricted to the fields `load_dataset`
inspects (`query_id` identifies the example). -/
structure RawExample where
  query_id : Int
  query_type : PyStr
  answers : List PyStr
deriving Repr, DecidableEq

/-- The lowercased/stripped answer forms rejected by `load_dataset`. -/
def noAnswerForms : List PyStr :=
  [pystr "no answer", pystr "no answer present", pystr "no answer present."]

/-- The conjunction of the three `continue` filters of `load_dataset`:
matching query type, a non-empty first answer, and a first answer that is
not a "no answer" form. -/
def matchesFilter (cfg : DatasetConfig) (e : RawExample) : Bool :=
  e.query_type == cfg.query_type &&
  !(e.answers.isEmpty || (e.answers.headD []).isEmpty) &&
  !(noAnswerForms.contains (pyStrip (pyLower (e.answers.headD []))))

/-- The loop of `LLMLingua2Compressor.load_dataset`: `count` is
`numeric_example_count` and `acc` is `filtered_examples`. -/
def loadDatasetAux (cfg : DatasetConfig) :
    List RawExample → Nat → List RawExample → List RawExample
  | [], _, acc => acc
  | e :: rest, count, acc =>
    if cfg.max_examples ≤ acc.length then acc
    else if !(e.query_type == cfg.query_type) then loadDatasetAux cfg rest count acc
    else if e.answers.isEmpty || (e.answers.headD []).isEmpty then
      loadDatasetAux cfg rest count acc
    else if noAnswerForms.contains (pyStrip (pyLower (e.answers.headD []))) then
      loadDatasetAux cfg rest count acc
    else if count + 1 < cfg.start then loadDatasetAux cfg rest (count + 1) acc
    else loadDatasetAux cfg rest (count + 1) (acc ++ [e])

/-- Model of `LLMLingua2Compressor.load_dataset`, as a function of the (externally
fetched) validation split. -/
def load_dataset (cfg : DatasetConfig) (dataset : List RawExample) : List RawExample :=
  loadDatasetAux cfg dataset 0 []

/-- The per-example record type produced by `process_example` is opaque to
`run_compression`; only success/failure of processing matters here. -/
def ProcessOracle (ρ : Type) : Type := RawExample → Except PyStr ρ

/-- The `for`/`try`/`except` accumulation loop of `run_compression`: a
failing example is logged and skipped, a successful record is appended. -/
def runCompressionLoop {ρ : Type} (process : ProcessOracle ρ) : List RawExample → List ρ
  | [] => []
  | e :: rest =>
    match process e with
    | .ok r => r :: runCompressionLoop process rest
    | .error _ => runCompressionLoop process rest

/-- The attributes assigned on a `LLMLingua2Compressor` object:
`__init__` (lines 113-131) sets `config`, `context_tracker`, `api_client`
and `compressor`, and no statement in the class ever assigns `start`, so
that attribute is absent (`none`) on every constructed object. -/
structure CompressorAttrs where
  dataset_config : DatasetConfig
  start : Option Nat := none

/-- Model of `LLMLingua2Compressor.__init__`, restricted to the modelled attributes:
the `start` attribute is never assigned. -/
def initCompressor (cfg : DatasetConfig) : CompressorAttrs :=
  { dataset_config := cfg, start := none }

/-- Python attribute lookup `self.start`: raises `AttributeError` when the
attribute was never assigned. -/
def getattrStart (st : CompressorAttrs) : Except PyStr Nat :=
  match st.start with
  | some v => .ok v
  | none => .error (pystr "AttributeError: 'LLMLingua2Compressor' object has no attribute 'start'")

/-- Model of `LLMLingua2Compressor.run_compression`.  Its first statement is
`examples = self.load_dataset(self.start)`: reading `self.start` raises
`AttributeError` (the attribute is never assigned), and even if it did not,
`load_dataset` accepts no positional argument besides `self`, so the call
itself would raise `TypeError`.  Either way the statement raises before the
slicing and the processing loop below it can run. -/
def run_compression {ρ : Type} (st : CompressorAttrs) (dataset : List RawExample)
    (process : ProcessOracle ρ) (num_examples : Option Nat) : Except PyStr (List ρ) := do
  let _start ← getattrStart st
  let _ ← (Except.error
    (pystr "TypeError: load_dataset() takes 1 positional argument but 2 were given") :
    Except PyStr Unit)
  let examples := load_dataset st.dataset_config dataset
  let examples :=
    match num_examples with
    | some n => if n = 0 then examples else examples.take n
    | none => examples
  pure (runCompressionLoop process examples)

/-! ## CorrectMSMARCOEvaluator (`msmarco_evaluator.py`) -/

/-- The value of `result[method]` as inspected by `format_predictions`:
`response?` is `none` when the `'response'` key is absent, `some none`
when it is JSON `null`, and `some (some s)` when it is the string `s`. -/
structure MethodEntry where
  response? : Option (Option PyStr)
deriving Repr, DecidableEq

/-- One record of the compression-results list, restricted to the fields
the evaluator reads. -/
structure EvalRecord where
  query_id : Int
  ground_truth : PyStr
  methods : List (PyStr × MethodEntry)
deriving Repr, DecidableEq

/-- The sentinel prediction `"No Answer Present."`. -/
def sentinel : PyStr := pystr "No Answer Present."

/-- Python `str(query_id)` for an integer id. -/
def intStr (i : Int) : PyStr := (toString i).data

/-- The loop body of `CorrectMSMARCOEvaluator.format_predictions` for one
record: `result[method]['response'] or "No Answer Present."` when both
keys exist (so a `null` or empty-string response also yields the
sentinel), and the sentinel when either key is missing. -/
def predictionFor (r : EvalRecord) (method : PyStr) : PyStr :=
  match lookupAssoc r.methods method with
  | some entry =>
    match entry.response? with
    | some (some s) => if s.isEmpty then sentinel else s
    | some none => sentinel
    | none => sentinel
  | none => sentinel

/-- Model of `CorrectMSMARCOEvaluator.format_predictions`: build the dict
`str(query_id) → prediction` over the record list (the write to
`output_file` is external output and not modelled). -/
def format_predictions (results : List EvalRecord) (method : PyStr) :
    List (PyStr × PyStr) :=
  results.foldl (fun fd r => dictInsert fd (intStr r.query_id) (predictionFor r method)) []

/-- The metric keywords scanned for by `run_evaluation`. -/
def kwList : List PyStr := [pystr "rouge", pystr "bleu", pystr "f1", pystr "exact"]

/-- Digit-string to natural number (`"4523"` ↦ `4523`). -/
def digitsToNat (l : PyStr) : Nat :=
  l.foldl (fun a c => a * 10 + (c.toNat - 48)) 0

/-- Are all characters decimal digits? -/
def allDigits (l : PyStr) : Bool := l.all Char.isDigit

/-- Model of Python `float(s)` on the decimal forms the scorer emits:
an optional sign, then digits with at most one decimal point (at least one
digit overall).  Other inputs — including the non-numeric lines the
evaluator must discard — yield `none` (Python raises `ValueError`).
The value is represented exactly as a rational. -/
def pyFloat (l : PyStr) : Option ℚ :=
  let signBody : ℚ × PyStr :=
    match l with
    | '+' :: r => (1, r)
    | '-' :: r => (-1, r)
    | r => (1, r)
  match splitOnChar '.' signBody.2 with
  | [intPart] =>
    if !intPart.isEmpty && allDigits intPart then
      some (signBody.1 * (digitsToNat intPart : ℚ))
    else none
  | [intPart, fracPart] =>
    if (!intPart.isEmpty || !fracPart.isEmpty) && allDigits intPart && allDigits fracPart then
      some (signBody.1 *
        ((digitsToNat intPart : ℚ) + (digitsToNat fracPart : ℚ) / (10 ^ fracPart.length : ℚ)))
    else none
  | _ => none

/-- The per-line body of the metric-scraping loop in
`CorrectMSMARCOEvaluator.run_evaluation`: a line contributes an entry only
if it contains `':'` and one of the keywords appears in its lowercase form;
the key is `parts[0].strip().lower().replace('-', '_')` and the value is
`float(parts[1].strip())`; a failed float parse is silently discarded. -/
def scrapeLine (line : PyStr) (metrics : List (PyStr × ℚ)) : List (PyStr × ℚ) :=
  if line.contains ':' && kwList.any (fun kw => occursB kw (pyLower line)) then
    match splitOnChar ':' line with
    | p0 :: p1 :: _ =>
      match pyFloat (pyStrip p1) with
      | some v => dictInsert metrics (replaceList ['-'] ['_'] (pyLower (pyStrip p0))) v
      | none => metrics
    | _ => metrics
  else metrics

/-- The metric-scraping loop of `run_evaluation` over the (already
stripped) stdout of the scorer, line by line. -/
def scrapeMetrics (output : PyStr) : List (PyStr × ℚ) :=
  (splitOnChar '\n' output).foldl (fun m line => scrapeLine line m) []

/-- The outcome dict built by `run_evaluation` for one scorer run:
`success: True` with metrics and raw output, or `success: False` with the
exception message and stderr. -/
inductive EvalOutcome where
  | success (metrics : List (PyStr × ℚ)) (raw_output : PyStr)
  | failure (error : PyStr) (stderr : PyStr)
deriving DecidableEq

/-- The result of shelling out to `ms_marco_eval.py`: captured stdout on a
zero exit, or (exception message, stderr) on `CalledProcessError`. -/
def ScorerRun : Type := Except (PyStr × PyStr) PyStr

/-- Model of `CorrectMSMARCOEvaluator.run_evaluation`: on a zero scorer exit,
strip the stdout and scrape metrics from it; on `CalledProcessError`
return a failure outcome (the exception is caught, not re-raised). -/
def run_evaluation (scorerResult : ScorerRun) : EvalOutcome :=
  match scorerResult with
  | .ok stdout => .success (scrapeMetrics (pyStrip stdout)) (pyStrip stdout)
  | .error es => .failure es.1 es.2

/-- The fixed method list of `evaluate_all_methods`. -/
def methodsList : List PyStr :=
  [pystr "original", pystr "method1_rate", pystr "method2_target_tokens",
   pystr "method3_target_contexts"]

/-- Model of `CorrectMSMARCOEvaluator.evaluate_all_methods`: run one evaluation per
method of the fixed list (the scorer invocation for each method is the
black box `scorer`), accumulating the outcomes into the `all_results`
dict keyed by method name. -/
def evaluate_all_methods (scorer : PyStr → ScorerRun) : List (PyStr × EvalOutcome) :=
  methodsList.foldl (fun all_results m => dictInsert all_results m (run_evaluation (scorer m))) []

/-! ## Characterization of `prepare_contexts_with_separators` -/

theorem prepareLoop_eq (sep : PyStr) :
    ∀ (cs : List PyStr) (i : Nat) (combined : PyStr) (poss : List (Nat × Nat)),
    prepareLoop sep cs (i + 1) combined combined.length poss =
      (combined ++ tailCat (sepFull sep) cs,
       poss ++ tailSpans (sepFull sep).length combined.length cs) := by
  intro cs
  induction cs with
  | nil => intro i combined poss; simp [prepareLoop, tailCat, tailSpans]
  | cons c rest ih =>
    intro i combined poss
    have h := ih (i + 1) ((combined ++ sepFull sep) ++ c)
      (poss ++ [(combined.length + (sepFull sep).length,
                 combined.length + (sepFull sep).length + c.length)])
    simp only [List.length_append] at h
    simp only [prepareLoop, gt_iff_lt, Nat.succ_pos, if_pos, tailCat, tailSpans]
    rw [h]
    simp [List.append_assoc, Nat.add_assoc]

theorem prepare_eq (sep : PyStr) (contexts : List PyStr) :
    prepare_contexts_with_separators sep contexts =
      (joinWith (sepFull sep) contexts, fullSpans (sepFull sep).length contexts) := by
  cases contexts with
  | nil => rfl
  | cons c rest =>
    have h := prepareLoop_eq sep rest 0 c [(0, c.length)]
    simp only [prepare_contexts_with_separators, prepareLoop, gt_iff_lt, Nat.lt_irrefl,
      if_neg, List.nil_append, Nat.zero_add, joinWith, fullSpans]
    simpa using h

theorem tailSpans_length (L : Nat) : ∀ (cs : List PyStr) (pos : Nat),
    (tailSpans L pos cs).length = cs.length := by
  intro cs
  induction cs with
  | nil => intro pos; rfl
  | cons c rest ih => intro pos; simp [tailSpans, ih]

theorem fullSpans_length (L : Nat) (cs : List PyStr) :
    (fullSpans L cs).length = cs.length := by
  cases cs with
  | nil => rfl
  | cons c rest => simp [fullSpans, tailSpans_length]

theorem tailSpans_mem_bound (L : Nat) : ∀ (cs : List PyStr) (pos : Nat),
    ∀ sp ∈ tailSpans L pos cs, pos ≤ sp.1 ∧ sp.1 ≤ sp.2 := by
  intro cs
  induction cs with
  | nil => intro pos sp h; simp [tailSpans] at h
  | cons c rest ih =>
    intro pos sp h
    simp only [tailSpans, List.mem_cons] at h
    rcases h with h | h
    · subst h; constructor <;> omega
    · have := ih (pos + L + c.length) sp h
      omega

theorem tailSpans_pairwise (L : Nat) : ∀ (cs : List PyStr) (pos : Nat),
    List.Pairwise (fun a b => a.2 ≤ b.1) (tailSpans L pos cs) := by
  intro cs
  induction cs with
  | nil => intro pos; simp [tailSpans]
  | cons c rest ih =>
    intro pos
    simp only [tailSpans, List.pairwise_cons]
    refine ⟨fun sp hsp => ?_, ih _⟩
    have := tailSpans_mem_bound L rest (pos + L + c.length) sp hsp
    omega

theorem fullSpans_pairwise (L : Nat) (cs : List PyStr) :
    List.Pairwise (fun a b => a.2 ≤ b.1) (fullSpans L cs) := by
  cases cs with
  | nil => simp [fullSpans]
  | cons c rest =>
    simp only [fullSpans, List.pairwise_cons]
    refine ⟨fun sp hsp => ?_, tailSpans_pairwise L rest c.length⟩
    have := tailSpans_mem_bound L rest c.length sp hsp
    omega

theorem fullSpans_mem_wf (L : Nat) (cs : List PyStr) :
    ∀ sp ∈ fullSpans L cs, sp.1 ≤ sp.2 := by
  cases cs with
  | nil => intro sp h; simp [fullSpans] at h
  | cons c rest =>
    intro sp h
    simp only [fullSpans, List.mem_cons] at h
    rcases h with h | h
    · subst h; simp
    · exact (tailSpans_mem_bound L rest c.length sp h).2

theorem tailSpans_slice (sf : PyStr) : ∀ (cs : List PyStr) (pre : PyStr) (k : Nat),
    k < cs.length →
    ((pre ++ tailCat sf cs).drop ((tailSpans sf.length pre.length cs).getD k (0, 0)).1).take
        (((tailSpans sf.length pre.length cs).getD k (0, 0)).2 -
          ((tailSpans sf.length pre.length cs).getD k (0, 0)).1) =
      cs.getD k [] := by
  intro cs
  induction cs with
  | nil => intro pre k hk; simp at hk
  | cons c rest ih =>
    intro pre k hk
    cases k with
    | zero =>
      simp only [tailSpans, List.getD_cons_zero, tailCat, List.getD_cons_zero]
      have h2 : pre.length + sf.length + c.length - (pre.length + sf.length) = c.length := by
        omega
      rw [h2]
      have h3 : pre ++ (sf ++ c ++ tailCat sf rest) =
          (pre ++ sf) ++ (c ++ tailCat sf rest) := by simp [List.append_assoc]
      rw [h3, ← List.length_append, List.drop_left, List.take_left]
    | succ k =>
      simp only [tailSpans, List.getD_cons_succ, tailCat]
      have h := ih (pre ++ sf ++ c) k (by simpa using hk)
      simp only [List.length_append, List.append_assoc] at h
      have h5 : pre.length + (sf.length + c.length) =
          pre.length + sf.length + c.length := by omega
      rw [h5] at h
      simpa [List.append_assoc, List.getD_cons_succ] using h

theorem fullSpans_slice (sf : PyStr) (cs : List PyStr) (k : Nat) (hk : k < cs.length) :
    ((joinWith sf cs).drop ((fullSpans sf.length cs).getD k (0, 0)).1).take
        (((fullSpans sf.length cs).getD k (0, 0)).2 -
          ((fullSpans sf.length cs).getD k (0, 0)).1) =
      cs.getD k [] := by
  cases cs with
  | nil => simp at hk
  | cons c rest =>
    cases k with
    | zero => simp [fullSpans, joinWith, List.take_left]
    | succ k =>
      simp only [fullSpans, joinWith, List.getD_cons_succ]
      have h := tailSpans_slice sf rest c k (by simpa using hk)
      simpa using h

/-- C3: for every list of N passages, `prepare_contexts_with_separators`
returns a combined string and, for each index `0..N-1`, a half-open
character span; the spans are pairwise non-overlapping and ordered by
index, each span slices exactly the corresponding passage text out of the
combined string, and the passages interleaved with the separator string
`" <separator> "` reconstruct the combined string exactly. -/
theorem c3_prepare_spans (sep : PyStr) (contexts : List PyStr) :
    (prepare_contexts_with_separators sep contexts).2.length = contexts.length ∧
    List.Pairwise (fun a b => a.2 ≤ b.1) (prepare_contexts_with_separators sep contexts).2 ∧
    (∀ k, k < contexts.length →
      ((prepare_contexts_with_separators sep contexts).2.getD k (0, 0)).1 ≤
        ((prepare_contexts_with_separators sep contexts).2.getD k (0, 0)).2) ∧
    (∀ k, k < contexts.length →
      (((prepare_contexts_with_separators sep contexts).1.drop
          ((prepare_contexts_with_separators sep contexts).2.getD k (0, 0)).1).take
        (((prepare_contexts_with_separators sep contexts).2.getD k (0, 0)).2 -
          ((prepare_contexts_with_separators sep contexts).2.getD k (0, 0)).1)) =
        contexts.getD k []) ∧
    (prepare_contexts_with_separators sep contexts).1 = joinWith (sepFull sep) contexts := by
  rw [prepare_eq]
  refine ⟨fullSpans_length _ _, fullSpans_pairwise _ _, fun k hk => ?_, fun k hk => ?_, rfl⟩
  · have hlen : k < (fullSpans (sepFull sep).length contexts).length := by
      rw [fullSpans_length]; exact hk
    rw [List.getD_eq_getElem _ _ hlen]
    exact fullSpans_mem_wf _ contexts _ (List.getElem_mem hlen)
  · exact fullSpans_slice (sepFull sep) contexts k hk

/-- Witness for C3: at two concrete passages, the span of index 1 slices
exactly the second passage out of the combined string. -/
theorem c3_witness :
    (((prepare_contexts_with_separators (pystr "<s>") [pystr "ab", pystr "c"]).1.drop
        ((prepare_contexts_with_separators (pystr "<s>") [pystr "ab", pystr "c"]).2.getD 1
          (0, 0)).1).take
      (((prepare_contexts_with_separators (pystr "<s>") [pystr "ab", pystr "c"]).2.getD 1
          (0, 0)).2 -
        ((prepare_contexts_with_separators (pystr "<s>") [pystr "ab", pystr "c"]).2.getD 1
          (0, 0)).1)) =
      ([pystr "ab", pystr "c"] : List PyStr).getD 1 [] :=
  (c3_prepare_spans (pystr "<s>") [pystr "ab", pystr "c"]).2.2.2.1 1 (by decide)

/-! ## Characterization of `load_dataset` -/


theorem loadDatasetAux_eq (cfg : DatasetConfig) :
    ∀ (ds : List RawExample) (count : Nat) (acc : List RawExample),
    loadDatasetAux cfg ds count acc =
      acc ++ ((ds.filter (matchesFilter cfg)).drop (cfg.start - 1 - count)).take
        (cfg.max_examples - acc.length) := by
  intro ds
  induction ds with
  | nil => intro count acc; simp [loadDatasetAux]
  | cons e rest ih =>
    intro count acc
    by_cases hfull : cfg.max_examples ≤ acc.length
    · rw [loadDatasetAux, if_pos hfull, Nat.sub_eq_zero_of_le hfull]
      simp
    · by_cases hqt : e.query_type == cfg.query_type
      · by_cases hans : (e.answers.isEmpty || (e.answers.headD []).isEmpty) = true
        · have hm : matchesFilter cfg e = false := by
            unfold matchesFilter; rw [hans]; simp
          rw [loadDatasetAux, if_neg hfull, if_neg (by simp [hqt]), if_pos hans, ih]
          simp [List.filter_cons, hm]
        · by_cases hno : noAnswerForms.contains (pyStrip (pyLower (e.answers.headD []))) = true
          · have hm : matchesFilter cfg e = false := by
              unfold matchesFilter; rw [hno]; simp
            rw [loadDatasetAux, if_neg hfull, if_neg (by simp [hqt]),
              if_neg hans, if_pos hno, ih]
            simp [List.filter_cons, hm]
          · have hm : matchesFilter cfg e = true := by
              unfold matchesFilter
              rw [Bool.not_eq_true] at hans hno
              rw [hqt, hans, hno]
              rfl
            by_cases hskip : count + 1 < cfg.start
            · rw [loadDatasetAux, if_neg hfull, if_neg (by simp [hqt]), if_neg hans,
                if_neg hno, if_pos hskip, ih]
              have hd : cfg.start - 1 - count = (cfg.start - 1 - (count + 1)) + 1 := by omega
              simp only [List.filter_cons, hm, if_pos, hd, List.drop_succ_cons]
            · rw [loadDatasetAux, if_neg hfull, if_neg (by simp [hqt]), if_neg hans,
                if_neg hno, if_neg hskip, ih]
              have hd0 : cfg.start - 1 - count = 0 := by omega
              have hd1 : cfg.start - 1 - (count + 1) = 0 := by omega
              have hmax : cfg.max_examples - acc.length =
                  (cfg.max_examples - (acc.length + 1)) + 1 := by omega
              simp only [List.filter_cons, hm, if_pos, hd0, hd1, List.drop_zero,
                List.length_append, List.length_cons, List.length_nil, Nat.zero_add, hmax,
                List.take_succ_cons, List.append_assoc, List.singleton_append]
      · have hm : matchesFilter cfg e = false := by
          unfold matchesFilter
          rw [Bool.not_eq_true] at hqt
          rw [hqt]
          rfl
        rw [loadDatasetAux, if_neg hfull, if_pos (by rw [Bool.not_eq_true] at hqt; simp [hqt]), ih]
        simp [List.filter_cons, hm]

/-- C2 counterexample: over 5 raw examples of which 3 (ids 1, 3, 5) match
the query type `"description"` and have valid answers, `load_dataset` with
`max_examples = 2, start = 1` returns the FIRST two matching examples
(ids 1 and 3) — it does not skip the first matching example, so the
claimed output (ids 3 and 5) is wrong. -/
theorem c2_counterexample :
    ((load_dataset ⟨2, pystr "description", 1⟩
      [⟨1, pystr "description", [pystr "yes"]⟩,
       ⟨2, pystr "numeric", [pystr "yes"]⟩,
       ⟨3, pystr "description", [pystr "ok"]⟩,
       ⟨4, pystr "description", [pystr "No Answer Present."]⟩,
       ⟨5, pystr "description", [pystr "fine"]⟩]).map RawExample.query_id = [1, 3]) ∧
    (((load_dataset ⟨2, pystr "description", 1⟩
      [⟨1, pystr "description", [pystr "yes"]⟩,
       ⟨2, pystr "numeric", [pystr "yes"]⟩,
       ⟨3, pystr "description", [pystr "ok"]⟩,
       ⟨4, pystr "description", [pystr "No Answer Present."]⟩,
       ⟨5, pystr "description", [pystr "fine"]⟩]).map RawExample.query_id = [3, 5]) = False) :=
  ⟨by decide, eq_false (by decide)⟩

/-- C2 (amended): `load_dataset` filters the split by query-type equality
and valid answers, treats `start` as a 1-based index — skipping the first
`start - 1` matching examples, so `start = 1` skips none — and then
collects up to `max_examples` matching examples, preserving their original
relative order.  In the 5-example scenario with `max_examples = 2,
start = 1`, it returns the first 2 matching examples (ids 1 and 3). -/
theorem c2_load_dataset_window (cfg : DatasetConfig) (dataset : List RawExample) :
    load_dataset cfg dataset =
      ((dataset.filter (matchesFilter cfg)).drop (cfg.start - 1)).take cfg.max_examples := by
  unfold load_dataset
  rw [loadDatasetAux_eq]
  simp

/-- C1: `compress_with_method` never raises — for every library behaviour,
contexts list, query and method config, if the config contains none of the
keys `rate` / `target_token` / `target_context` (so the read of `result`
raises `UnboundLocalError`), or if the underlying library call raises, it
returns a well-formed result dict whose `error` field is set, whose
`compressed_prompt` is the uncompressed concatenation of the contexts
joined with the separator, and whose rate/ratio carry the sentinels
`"100%"` and `"1.0x"`. -/
theorem c1_compress_with_method_fallback (lib : LibOracle) (sep : PyStr)
    (contexts : List PyStr) (query : PyStr) (cfg : MethodConfig)
    (h : (cfg.rate = none ∧ cfg.target_token = none ∧ cfg.target_context = none) ∨
      ∃ e, compressAttempt lib sep contexts query cfg
        (prepare_contexts_with_separators sep contexts).1 = .error e) :
    (compress_with_method lib sep contexts query cfg).error.isSome = true ∧
    (compress_with_method lib sep contexts query cfg).compressed_prompt =
      joinWith (sepFull sep) contexts ∧
    (compress_with_method lib sep contexts query cfg).compression_rate = pystr "100%" ∧
    (compress_with_method lib sep contexts query cfg).compression_ratio_str = pystr "1.0x" := by
  have herr : ∃ e, compressAttempt lib sep contexts query cfg
      (prepare_contexts_with_separators sep contexts).1 = .error e := by
    rcases h with ⟨h1, h2, h3⟩ | h
    · exact ⟨pystr "cannot access local variable 'result' where it is not associated with a value",
        by simp [compressAttempt, h1, h2, h3]⟩
    · exact h
  obtain ⟨e, he⟩ := herr
  simp only [compress_with_method]
  rw [he]
  refine ⟨rfl, ?_, rfl, rfl⟩
  have hp := prepare_eq sep contexts
  rw [hp]

/-- Witness for C1: a config with none of the three keys, and an arbitrary
library, produce the fallback dict. -/
theorem c1_witness :
    (({} : MethodConfig).rate = none ∧ ({} : MethodConfig).target_token = none ∧
      ({} : MethodConfig).target_context = none) ∧
    ((compress_with_method (fun _ => Except.error []) (pystr "<s>") [pystr "ab", pystr "cd"]
        (pystr "q") {}).error.isSome = true ∧
     (compress_with_method (fun _ => Except.error []) (pystr "<s>") [pystr "ab", pystr "cd"]
        (pystr "q") {}).compressed_prompt =
        joinWith (sepFull (pystr "<s>")) [pystr "ab", pystr "cd"] ∧
     (compress_with_method (fun _ => Except.error []) (pystr "<s>") [pystr "ab", pystr "cd"]
        (pystr "q") {}).compression_rate = pystr "100%" ∧
     (compress_with_method (fun _ => Except.error []) (pystr "<s>") [pystr "ab", pystr "cd"]
        (pystr "q") {}).compression_ratio_str = pystr "1.0x") :=
  ⟨⟨rfl, rfl, rfl⟩,
   c1_compress_with_method_fallback (fun _ => Except.error []) (pystr "<s>")
     [pystr "ab", pystr "cd"] (pystr "q") {} (Or.inl ⟨rfl, rfl, rfl⟩)⟩

/-- C9: whenever `compress_with_method` takes its fallback branch (its
`error` field is set), the returned record's `context_analysis` is the
empty mapping, and `original_tokens` equals `compressed_tokens`, both
being the whitespace word count of the uncompressed combined context. -/
theorem c9_fallback_no_analysis (lib : LibOracle) (sep : PyStr) (contexts : List PyStr)
    (query : PyStr) (cfg : MethodConfig)
    (h : (compress_with_method lib sep contexts query cfg).error.isSome = true) :
    (compress_with_method lib sep contexts query cfg).context_analysis = [] ∧
    (compress_with_method lib sep contexts query cfg).original_tokens =
      (splitWs (prepare_contexts_with_separators sep contexts).1).length ∧
    (compress_with_method lib sep contexts query cfg).compressed_tokens =
      (splitWs (prepare_contexts_with_separators sep contexts).1).length := by
  cases hc : compressAttempt lib sep contexts query cfg
      (prepare_contexts_with_separators sep contexts).1 with
  | ok r =>
    exfalso
    simp only [compress_with_method] at h
    rw [hc] at h
    simp at h
  | error e =>
    simp only [compress_with_method]
    rw [hc]
    exact ⟨rfl, rfl, rfl⟩

/-- Witness for C9: a library that raises produces a record with an error
set, an empty analysis, and equal token counts. -/
theorem c9_witness :
    (compress_with_method (fun _ => Except.error (pystr "boom")) (pystr "<s>")
      [pystr "ab", pystr "cd"] (pystr "q") { rate := some 1 }).error.isSome = true ∧
    ((compress_with_method (fun _ => Except.error (pystr "boom")) (pystr "<s>")
        [pystr "ab", pystr "cd"] (pystr "q") { rate := some 1 }).context_analysis = [] ∧
     (compress_with_method (fun _ => Except.error (pystr "boom")) (pystr "<s>")
        [pystr "ab", pystr "cd"] (pystr "q") { rate := some 1 }).original_tokens =
        (splitWs (prepare_contexts_with_separators (pystr "<s>")
          [pystr "ab", pystr "cd"]).1).length ∧
     (compress_with_method (fun _ => Except.error (pystr "boom")) (pystr "<s>")
        [pystr "ab", pystr "cd"] (pystr "q") { rate := some 1 }).compressed_tokens =
        (splitWs (prepare_contexts_with_separators (pystr "<s>")
          [pystr "ab", pystr "cd"]).1).length) :=
  ⟨rfl,
   c9_fallback_no_analysis (fun _ => Except.error (pystr "boom")) (pystr "<s>")
     [pystr "ab", pystr "cd"] (pystr "q") { rate := some 1 } rfl⟩

/-- C5 (code bug): `run_compression` never reaches its processing loop.
Its first statement `examples = self.load_dataset(self.start)` reads the
never-assigned attribute `start` — raising `AttributeError` on every
object built by `__init__` — and the call passes an argument to the
zero-parameter method `load_dataset`, which would raise `TypeError` even
if the attribute existed.  So the function raises instead of iterating
the filtered examples and returning the successful records. -/
theorem c5_run_compression_always_raises {ρ : Type} (cfg : DatasetConfig)
    (dataset : List RawExample) (process : ProcessOracle ρ)
    (num_examples : Option Nat) :
    (run_compression (initCompressor cfg) dataset process num_examples =
      Except.error
        (pystr "AttributeError: 'LLMLingua2Compressor' object has no attribute 'start'")) ∧
    (∀ st : CompressorAttrs, (run_compression st dataset process num_examples).isOk = false) := by
  constructor
  · rfl
  · intro st
    cases hs : st.start with
    | none => simp only [run_compression, getattrStart, hs]; rfl
    | some v => simp only [run_compression, getattrStart, hs]; rfl

/-! ## Association-list lemmas for the Python dict model -/

theorem lookupAssoc_dictInsert {κ α : Type} [DecidableEq κ]
    (d : List (κ × α)) (k k' : κ) (v : α) :
    lookupAssoc (dictInsert d k v) k' = if k = k' then some v else lookupAssoc d k' := by
  induction d with
  | nil => simp [dictInsert, lookupAssoc]
  | cons p rest ih =>
    obtain ⟨pk, pv⟩ := p
    by_cases hpk : pk = k
    · subst hpk
      by_cases hkk : pk = k' <;> simp [dictInsert, lookupAssoc, hkk]
    · by_cases hpk' : pk = k'
      · subst hpk'
        simp [dictInsert, lookupAssoc, hpk, Ne.symm hpk]
      · simp [dictInsert, lookupAssoc, hpk, hpk', ih]

theorem mem_dictInsert {κ α : Type} [DecidableEq κ]
    (d : List (κ × α)) (k : κ) (v : α) (p : κ × α) (hp : p ∈ dictInsert d k v) :
    p = (k, v) ∨ p ∈ d := by
  induction d with
  | nil => simp [dictInsert] at hp; left; exact hp
  | cons q rest ih =>
    obtain ⟨qk, qv⟩ := q
    by_cases hqk : qk = k
    · subst hqk
      simp [dictInsert] at hp
      rcases hp with hp | hp
      · left; simpa using hp
      · right; simp [hp]
    · simp [dictInsert, hqk] at hp
      rcases hp with hp | hp
      · right; simp [hp]
      · rcases ih hp with hp' | hp'
        · left; exact hp'
        · right; simp [hp']

theorem lookupAssoc_foldl_isSome {κ α β : Type} [DecidableEq κ]
    (key : β → κ) (val : β → α) :
    ∀ (xs : List β) (init : List (κ × α)) (k : κ),
    (lookupAssoc (xs.foldl (fun d x => dictInsert d (key x) (val x)) init) k).isSome = true ↔
      ((lookupAssoc init k).isSome = true ∨ ∃ x ∈ xs, key x = k) := by
  intro xs
  induction xs with
  | nil => intro init k; simp
  | cons x rest ih =>
    intro init k
    simp only [List.foldl_cons, ih, lookupAssoc_dictInsert, List.mem_cons]
    by_cases h : key x = k
    · simp [h]
    · constructor
      · rintro (hs | ⟨y, hy, hk⟩)
        · rw [if_neg h] at hs; exact Or.inl hs
        · exact Or.inr ⟨y, Or.inr hy, hk⟩
      · rintro (hs | ⟨y, hy | hy, hk⟩)
        · exact Or.inl (by rw [if_neg h]; exact hs)
        · exact absurd (hy ▸ hk) h
        · exact Or.inr ⟨y, hy, hk⟩

theorem lookupAssoc_foldl_skip {κ α β : Type} [DecidableEq κ]
    (key : β → κ) (val : β → α) :
    ∀ (xs : List β) (init : List (κ × α)) (k : κ), (∀ x ∈ xs, key x ≠ k) →
    lookupAssoc (xs.foldl (fun d x => dictInsert d (key x) (val x)) init) k =
      lookupAssoc init k := by
  intro xs
  induction xs with
  | nil => intro init k _; rfl
  | cons x rest ih =>
    intro init k hk
    simp only [List.foldl_cons]
    rw [ih _ k fun y hy => hk y (List.mem_cons_of_mem _ hy), lookupAssoc_dictInsert,
      if_neg (hk x (List.mem_cons_self _ _))]

theorem lookupAssoc_foldl_nodup {κ α β : Type} [DecidableEq κ]
    (key : β → κ) (val : β → α) :
    ∀ (xs : List β) (init : List (κ × α)) (x : β), x ∈ xs → (xs.map key).Nodup →
    lookupAssoc (xs.foldl (fun d x => dictInsert d (key x) (val x)) init) (key x) =
      some (val x) := by
  intro xs
  induction xs with
  | nil => intro init x hx; simp at hx
  | cons y rest ih =>
    intro init x hx hnd
    simp only [List.map_cons, List.nodup_cons] at hnd
    simp only [List.foldl_cons]
    rcases List.mem_cons.mp hx with hxy | hxr
    · subst hxy
      rw [lookupAssoc_foldl_skip key val rest _ (key x)
          (fun z hz hzx => hnd.1 (hzx ▸ List.mem_map_of_mem key hz)),
        lookupAssoc_dictInsert, if_pos rfl]
    · exact ih _ x hxr hnd.2

theorem mem_foldl_dictInsert {κ α β : Type} [DecidableEq κ]
    (key : β → κ) (val : β → α) :
    ∀ (xs : List β) (init : List (κ × α)) (p : κ × α),
    p ∈ xs.foldl (fun d x => dictInsert d (key x) (val x)) init →
    p ∈ init ∨ ∃ x ∈ xs, p = (key x, val x) := by
  intro xs
  induction xs with
  | nil => intro init p hp; exact Or.inl hp
  | cons y rest ih =>
    intro init p hp
    simp only [List.foldl_cons] at hp
    rcases ih _ p hp with hp' | ⟨x, hx, hpx⟩
    · rcases mem_dictInsert _ _ _ _ hp' with hp'' | hp''
      · exact Or.inr ⟨y, List.mem_cons_self _ _, hp''⟩
      · exact Or.inl hp''
    · exact Or.inr ⟨x, List.mem_cons_of_mem _ hx, hpx⟩

/-- C6: for every results list and method name, `format_predictions`
produces a mapping whose keys are exactly the stringified `query_id`s of
the records; a record that lacks the requested method key contributes the
sentinel `"No Answer Present."` instead of raising a lookup error (and
when the stringified ids are distinct, that sentinel is the mapping's
value for that id). -/
theorem c6_format_predictions_total (results : List EvalRecord) (method : PyStr) :
    (∀ k, (lookupAssoc (format_predictions results method) k).isSome = true ↔
      ∃ r ∈ results, intStr r.query_id = k) ∧
    (∀ r ∈ results, lookupAssoc r.methods method = none →
      predictionFor r method = sentinel) ∧
    ((results.map fun r => intStr r.query_id).Nodup →
      ∀ r ∈ results, lookupAssoc r.methods method = none →
        lookupAssoc (format_predictions results method) (intStr r.query_id) = some sentinel) := by
  refine ⟨fun k => ?_, fun r _ hr => ?_, fun hnd r hr hm => ?_⟩
  · rw [format_predictions,
      lookupAssoc_foldl_isSome (fun r => intStr r.query_id) (fun r => predictionFor r method)]
    simp [lookupAssoc]
  · simp [predictionFor, hr]
  · rw [format_predictions,
      lookupAssoc_foldl_nodup (fun r => intStr r.query_id) (fun r => predictionFor r method)
        results [] r hr hnd]
    simp [predictionFor, hm]

/-- Witness for C6: two records with distinct ids, the first lacking the
method key `"original"`, yield the sentinel for the first id. -/
theorem c6_witness :
    (([(⟨1, pystr "gt", []⟩ : EvalRecord),
       ⟨2, pystr "gt2", [(pystr "original", ⟨some (some (pystr "hi"))⟩)]⟩].map
        fun r => intStr r.query_id).Nodup) ∧
    (⟨1, pystr "gt", []⟩ : EvalRecord) ∈
      [(⟨1, pystr "gt", []⟩ : EvalRecord),
       ⟨2, pystr "gt2", [(pystr "original", ⟨some (some (pystr "hi"))⟩)]⟩] ∧
    lookupAssoc ((⟨1, pystr "gt", []⟩ : EvalRecord)).methods (pystr "original") = none ∧
    lookupAssoc
      (format_predictions
        [(⟨1, pystr "gt", []⟩ : EvalRecord),
         ⟨2, pystr "gt2", [(pystr "original", ⟨some (some (pystr "hi"))⟩)]⟩]
        (pystr "original"))
      (intStr ((⟨1, pystr "gt", []⟩ : EvalRecord)).query_id) = some sentinel :=
  ⟨by decide, by decide, rfl,
   (c6_format_predictions_total
      [⟨1, pystr "gt", []⟩,
       ⟨2, pystr "gt2", [(pystr "original", ⟨some (some (pystr "hi"))⟩)]⟩]
      (pystr "original")).2.2 (by decide) ⟨1, pystr "gt", []⟩ (by decide) rfl⟩

/-- The per-record prediction is never the empty string: it is either the
sentinel or a response string that passed the truthiness test. -/
theorem predictionFor_ne_empty (r : EvalRecord) (method : PyStr) :
    (predictionFor r method).isEmpty = false := by
  unfold predictionFor
  cases lookupAssoc r.methods method with
  | none => rfl
  | some entry =>
    obtain ⟨o⟩ := entry
    rcases o with _ | o2
    · rfl
    · rcases o2 with _ | s
      · rfl
      · show (if s.isEmpty = true then sentinel else s).isEmpty = false
        cases hb : s.isEmpty with
        | true => rfl
        | false => simpa using hb

/-- C10: `format_predictions` substitutes the sentinel not only when the
method key is absent but also when the record's method entry has a `null`
or empty-string `response`; consequently every value in the emitted
predictions mapping is a non-empty string. -/
theorem c10_sentinel_and_nonempty (results : List EvalRecord) (method : PyStr) :
    (∀ r ∈ results, ∀ entry, lookupAssoc r.methods method = some entry →
      (entry.response? = some none ∨ entry.response? = some (some [])) →
      predictionFor r method = sentinel) ∧
    (∀ p ∈ format_predictions results method, p.2.isEmpty = false) := by
  constructor
  · intro r _ entry hentry hresp
    rcases hresp with hresp | hresp <;> simp [predictionFor, hentry, hresp, List.isEmpty]
  · intro p hp
    rw [format_predictions] at hp
    rcases mem_foldl_dictInsert (fun r => intStr r.query_id)
        (fun r => predictionFor r method) results [] p hp with hp' | ⟨r, _, hpr⟩
    · simp at hp'
    · rw [hpr]
      exact predictionFor_ne_empty r method

/-- Witness for C10: a record whose `response` is `null` yields the
sentinel. -/
theorem c10_witness :
    (⟨3, pystr "gt", [(pystr "original", ⟨some none⟩)]⟩ : EvalRecord) ∈
      [(⟨3, pystr "gt", [(pystr "original", ⟨some none⟩)]⟩ : EvalRecord)] ∧
    lookupAssoc ((⟨3, pystr "gt", [(pystr "original", ⟨some none⟩)]⟩ : EvalRecord)).methods
      (pystr "original") = some ⟨some none⟩ ∧
    ((⟨some none⟩ : MethodEntry).response? = some none ∨
      (⟨some none⟩ : MethodEntry).response? = some (some [])) ∧
    predictionFor (⟨3, pystr "gt", [(pystr "original", ⟨some none⟩)]⟩ : EvalRecord)
      (pystr "original") = sentinel :=
  ⟨by decide, rfl, Or.inl rfl,
   (c10_sentinel_and_nonempty
      [⟨3, pystr "gt", [(pystr "original", ⟨some none⟩)]⟩] (pystr "original")).1
     ⟨3, pystr "gt", [(pystr "original", ⟨some none⟩)]⟩ (by decide) ⟨some none⟩ rfl
     (Or.inl rfl)⟩

/-- C7: the stdout scraping loop maps the line `"ROUGE-L: 0.4523"` to the
entry `rouge_l ↦ 0.4523` and ignores `"Notes: see above"`; in general a
line contributes a metric only if it contains `':'` and one of the
keywords rouge/bleu/f1/exact, and a line whose right-hand side does not
parse as a float is silently discarded. -/
theorem c7_metric_scraping :
    (scrapeMetrics (pystr "ROUGE-L: 0.4523") = [(pystr "rouge_l", (0.4523 : ℚ))]) ∧
    (scrapeMetrics (pystr "Notes: see above") = []) ∧
    (∀ line m, (line.contains ':' && kwList.any fun kw => occursB kw (pyLower line)) = false →
      scrapeLine line m = m) ∧
    (∀ line m p0 p1 rest, splitOnChar ':' line = p0 :: p1 :: rest →
      pyFloat (pyStrip p1) = none → scrapeLine line m = m) := by
  refine ⟨?_, rfl, fun line m h => ?_, fun line m p0 p1 rest hsplit hfl => ?_⟩
  · have hraw : scrapeMetrics (pystr "ROUGE-L: 0.4523") =
        [(pystr "rouge_l", (1 : ℚ) * ((digitsToNat (pystr "0") : ℚ) +
          (digitsToNat (pystr "4523") : ℚ) / (10 ^ (pystr "4523").length : ℚ)))] := rfl
    rw [hraw]
    refine congrArg (fun q => [(pystr "rouge_l", q)]) ?_
    rw [show digitsToNat (pystr "0") = 0 from by decide,
      show digitsToNat (pystr "4523") = 4523 from by decide,
      show (pystr "4523").length = 4 from by decide]
    norm_num
  · rw [scrapeLine, if_neg (by rw [h]; simp)]
  · rw [scrapeLine]
    by_cases hc : (line.contains ':' && kwList.any fun kw => occursB kw (pyLower line)) = true
    · rw [if_pos hc, hsplit]
      show (match pyFloat (pyStrip p1) with
        | some v => dictInsert m (replaceList ['-'] ['_'] (pyLower (pyStrip p0))) v
        | none => m) = m
      rw [hfl]
    · rw [if_neg hc]

/-- Witness for C7: a keyword line whose right-hand side is not a float
leaves the metrics dict unchanged. -/
theorem c7_witness :
    splitOnChar ':' (pystr "rouge: n/a") = [pystr "rouge", pystr " n/a"] ∧
    pyFloat (pyStrip (pystr " n/a")) = none ∧
    scrapeLine (pystr "rouge: n/a") [] = [] :=
  ⟨by decide, rfl,
   c7_metric_scraping.2.2.2 (pystr "rouge: n/a") [] (pystr "rouge") (pystr " n/a") []
     (by decide) rfl⟩

/-- The `all_results` dict built by `evaluate_all_methods` holds, for each
of the four fixed methods, exactly the outcome of that method's own
scorer run. -/
theorem lookup_evaluate_all_methods (scorer : PyStr → ScorerRun) :
    ∀ m ∈ methodsList,
    lookupAssoc (evaluate_all_methods scorer) m = some (run_evaluation (scorer m)) := by
  intro m hm
  have hnd : (methodsList.map fun m => m).Nodup := by decide
  exact lookupAssoc_foldl_nodup (fun m => m) (fun m => run_evaluation (scorer m))
    methodsList [] m hm hnd

/-- C8: `evaluate_all_methods` runs one evaluation per method name of the
fixed list, aggregates the outcomes into one mapping keyed by method name,
and a scorer failure for one method does not prevent the others: each
method's entry depends only on that method's own scorer run. -/
theorem c8_evaluate_all_methods (scorer : PyStr → ScorerRun) :
    (evaluate_all_methods scorer =
      methodsList.map fun m => (m, run_evaluation (scorer m))) ∧
    (∀ m ∈ methodsList,
      lookupAssoc (evaluate_all_methods scorer) m = some (run_evaluation (scorer m))) ∧
    (∀ scorerB : PyStr → ScorerRun, ∀ mFail : PyStr,
      (∀ m, m ≠ mFail → scorerB m = scorer m) →
      ∀ m ∈ methodsList, m ≠ mFail →
        lookupAssoc (evaluate_all_methods scorerB) m =
          lookupAssoc (evaluate_all_methods scorer) m) := by
  refine ⟨?_, lookup_evaluate_all_methods scorer, fun scorerB mFail hag m hm hne => ?_⟩
  · simp +decide [evaluate_all_methods, methodsList, dictInsert]
  · rw [lookup_evaluate_all_methods scorer m hm, lookup_evaluate_all_methods scorerB m hm,
      hag m hne]

/-- Witness for C8: with a scorer that fails on `"original"` and succeeds
elsewhere, the entry for `"method1_rate"` is the same as under an
all-succeeding scorer. -/
theorem c8_witness :
    lookupAssoc (evaluate_all_methods (fun mtd => if mtd = pystr "original" then
        (Except.error (pystr "boom", pystr "stderr") : ScorerRun)
      else Except.ok [])) (pystr "method1_rate") =
      lookupAssoc (evaluate_all_methods (fun _ => (Except.ok [] : ScorerRun)))
        (pystr "method1_rate") :=
  (c8_evaluate_all_methods (fun _ => (Except.ok [] : ScorerRun))).2.2
    (fun mtd => if mtd = pystr "original" then
       (Except.error (pystr "boom", pystr "stderr") : ScorerRun)
     else Except.ok []) (pystr "original")
    (fun m hm => by simp [hm]) (pystr "method1_rate") (by decide) (by decide)

/-! ## Word-splitting lemmas for the retention analysis -/

theorem splitWsAcc_all_space : ∀ (w cur : PyStr), (∀ x ∈ w, pyIsSpace x = true) →
    splitWsAcc w cur = if cur.isEmpty then [] else [cur.reverse] := by
  intro w
  induction w with
  | nil => intro cur _; rfl
  | cons s w' ih =>
    intro cur hsp
    have hs : pyIsSpace s = true := hsp s (List.mem_cons_self _ _)
    have hw' : ∀ x ∈ w', pyIsSpace x = true := fun x hx => hsp x (List.mem_cons_of_mem _ hx)
    rw [splitWsAcc, if_pos hs]
    by_cases hc : cur.isEmpty
    · rw [if_pos hc, if_pos hc, ih [] hw']
      rfl
    · rw [if_neg hc, if_neg hc, ih [] hw']
      rfl

theorem splitWsAcc_append_space : ∀ (a b cur : PyStr),
    splitWsAcc (a ++ ' ' :: b) cur = splitWsAcc a cur ++ splitWsAcc b [] := by
  intro a
  induction a with
  | nil =>
    intro b cur
    rw [List.nil_append]
    show (if cur.isEmpty = true then splitWsAcc b [] else cur.reverse :: splitWsAcc b []) =
      splitWsAcc [] cur ++ splitWsAcc b []
    by_cases hc : cur.isEmpty = true
    · rw [if_pos hc, splitWsAcc, if_pos hc, List.nil_append]
    · rw [if_neg hc, splitWsAcc, if_neg hc, List.cons_append, List.nil_append]
  | cons c a' ih =>
    intro b cur
    rw [List.cons_append, splitWsAcc, splitWsAcc]
    by_cases hs : pyIsSpace c
    · rw [if_pos hs, if_pos hs]
      by_cases hc : cur.isEmpty
      · rw [if_pos hc, if_pos hc, ih]
      · rw [if_neg hc, if_neg hc, ih, List.cons_append]
    · rw [if_neg hs, if_neg hs, ih]

theorem splitWsAcc_append_all_space : ∀ (a ws cur : PyStr),
    (∀ x ∈ ws, pyIsSpace x = true) → splitWsAcc (a ++ ws) cur = splitWsAcc a cur := by
  intro a
  induction a with
  | nil =>
    intro ws cur hsp
    rw [List.nil_append, splitWsAcc_all_space ws cur hsp, splitWsAcc]
  | cons c a' ih =>
    intro ws cur hsp
    rw [List.cons_append, splitWsAcc, splitWsAcc]
    by_cases hs : pyIsSpace c
    · rw [if_pos hs, if_pos hs]
      by_cases hc : cur.isEmpty
      · rw [if_pos hc, if_pos hc, ih _ _ hsp]
      · rw [if_neg hc, if_neg hc, ih _ _ hsp]
    · rw [if_neg hs, if_neg hs, ih _ _ hsp]

theorem splitWsAcc_dropWhile : ∀ (l : PyStr),
    splitWsAcc (l.dropWhile pyIsSpace) [] = splitWsAcc l [] := by
  intro l
  induction l with
  | nil => rfl
  | cons c l' ih =>
    by_cases hs : pyIsSpace c
    · rw [List.dropWhile_cons_of_pos hs, ih, splitWsAcc, if_pos hs,
        if_pos (show (([] : PyStr)).isEmpty = true from rfl)]
    · rw [List.dropWhile_cons_of_neg hs]

theorem splitWs_pyStrip (l : PyStr) : splitWs (pyStrip l) = splitWs l := by
  unfold splitWs pyStrip
  have hm : l.dropWhile pyIsSpace =
      ((l.dropWhile pyIsSpace).reverse.dropWhile pyIsSpace).reverse ++
        ((l.dropWhile pyIsSpace).reverse.takeWhile pyIsSpace).reverse := by
    conv_lhs => rw [← List.reverse_reverse (l.dropWhile pyIsSpace),
      ← List.takeWhile_append_dropWhile (p := pyIsSpace)
        (l := (l.dropWhile pyIsSpace).reverse)]
    rw [List.reverse_append]
  have hws : ∀ x ∈ ((l.dropWhile pyIsSpace).reverse.takeWhile pyIsSpace).reverse,
      pyIsSpace x = true := by
    intro x hx
    rw [List.mem_reverse] at hx
    exact List.mem_takeWhile_imp hx
  calc splitWsAcc (((l.dropWhile pyIsSpace).reverse.dropWhile pyIsSpace).reverse) [] =
      splitWsAcc (((l.dropWhile pyIsSpace).reverse.dropWhile pyIsSpace).reverse ++
        ((l.dropWhile pyIsSpace).reverse.takeWhile pyIsSpace).reverse) [] :=
        (splitWsAcc_append_all_space _ _ [] hws).symm
    _ = splitWsAcc (l.dropWhile pyIsSpace) [] := by rw [← hm]
    _ = splitWsAcc l [] := splitWsAcc_dropWhile l

theorem splitWs_joinWith3 : ∀ (cs : List PyStr),
    splitWs (joinWith [' ', ' ', ' '] cs) = (cs.map splitWs).flatten := by
  intro cs
  induction cs with
  | nil => rfl
  | cons c cs ih =>
    cases cs with
    | nil => simp [joinWith, tailCat, splitWs]
    | cons c2 cs2 =>
      have hshape : joinWith [' ', ' ', ' '] (c :: c2 :: cs2) =
          c ++ ' ' :: (' ' :: ' ' :: joinWith [' ', ' ', ' '] (c2 :: cs2)) := by
        simp [joinWith, tailCat, List.append_assoc]
      rw [splitWs] at ih ⊢
      rw [hshape, splitWsAcc_append_space,
        show splitWsAcc (' ' :: ' ' :: joinWith [' ', ' ', ' '] (c2 :: cs2)) [] =
          splitWsAcc (joinWith [' ', ' ', ' '] (c2 :: cs2)) [] from by
            rw [splitWsAcc, if_pos (show pyIsSpace ' ' = true from rfl),
              if_pos (show (([] : PyStr)).isEmpty = true from rfl),
              splitWsAcc, if_pos (show pyIsSpace ' ' = true from rfl),
              if_pos (show (([] : PyStr)).isEmpty = true from rfl)],
        ih]
      simp [splitWs]

/-! ## Replacement lemmas for the separator cleanup -/

theorem isPrefixOf_iff (p : PyStr) : ∀ (l : PyStr), p.isPrefixOf l = true ↔ ∃ t, l = p ++ t := by
  induction p with
  | nil => intro l; simp [List.isPrefixOf]
  | cons a as ih =>
    intro l
    cases l with
    | nil => simp [List.isPrefixOf]
    | cons b bs =>
      simp only [List.isPrefixOf, Bool.and_eq_true, beq_iff_eq, ih, List.cons_append]
      constructor
      · rintro ⟨hab, t, ht⟩
        exact ⟨t, by rw [hab, ht]⟩
      · rintro ⟨t, ht⟩
        injection ht with h1 h2
        exact ⟨h1.symm, t, h2⟩

theorem occursB_false_prefixes (pat l : PyStr) (h : occursB pat l = false) :
    ∀ i, i < l.length → pat.isPrefixOf (l.drop i) = false := by
  intro i hi
  unfold occursB at h
  rw [List.any_eq_false] at h
  exact Bool.not_eq_true _ ▸ h i (List.mem_range.mpr (by omega))

theorem occursB_true_of_parts (pat a b : PyStr) : occursB pat (a ++ pat ++ b) = true := by
  unfold occursB
  rw [List.any_eq_true]
  refine ⟨a.length, List.mem_range.mpr (by simp; omega), ?_⟩
  have hd : (a ++ pat ++ b).drop a.length = pat ++ b := by
    rw [List.append_assoc, List.drop_left]
  rw [hd, isPrefixOf_iff]
  exact ⟨b, rfl⟩

theorem replaceFuel_congr (old new : PyStr) :
    ∀ (n : Nat) (l : PyStr), l.length ≤ n → ∀ f g, l.length ≤ f → l.length ≤ g →
    replaceFuel old new f l = replaceFuel old new g l := by
  intro n
  induction n with
  | zero =>
    intro l hl f g _ _
    have : l = [] := List.length_eq_zero.mp (Nat.le_zero.mp hl)
    subst this
    cases f <;> cases g <;> rfl
  | succ n ih =>
    intro l hl f g hf hg
    cases l with
    | nil => cases f <;> cases g <;> rfl
    | cons c rest =>
      cases f with
      | zero => simp at hf
      | succ f' =>
        cases g with
        | zero => simp at hg
        | succ g' =>
          simp only [replaceFuel]
          by_cases hp : (decide (old ≠ []) && old.isPrefixOf (c :: rest)) = true
          · rw [if_pos hp, if_pos hp]
            have hne : old ≠ [] := by
              simp only [Bool.and_eq_true, decide_eq_true_eq] at hp
              exact hp.1
            have holen : 1 ≤ old.length := List.length_pos.mpr hne
            have hdl : ((c :: rest).drop old.length).length ≤ n := by
              simp only [List.length_drop, List.length_cons]
              simp only [List.length_cons] at hl
              omega
            congr 1
            refine ih _ hdl f' g' ?_ ?_ <;>
              simp only [List.length_drop, List.length_cons] at * <;> omega
          · rw [if_neg hp, if_neg hp]
            have hrl : rest.length ≤ n := by
              simp only [List.length_cons] at hl; omega
            congr 1
            refine ih rest hrl f' g' ?_ ?_ <;>
              simp only [List.length_cons] at hf hg <;> omega

theorem replaceList_copy (old new : PyStr) :
    ∀ (a rest : PyStr),
    (∀ i, i < a.length → old.isPrefixOf ((a ++ rest).drop i) = false) →
    replaceList old new (a ++ rest) = a ++ replaceList old new rest := by
  intro a
  induction a with
  | nil => intro rest _; rw [List.nil_append, List.nil_append]
  | cons c a' ih =>
    intro rest h
    have h0 : old.isPrefixOf (c :: (a' ++ rest)) = false := by
      have := h 0 (by simp)
      rwa [List.drop_zero, List.cons_append] at this
    rw [List.cons_append, replaceList]
    simp only [List.length_cons, replaceFuel]
    rw [if_neg (by rw [h0]; simp)]
    have hstep : replaceFuel old new (a' ++ rest).length (a' ++ rest) =
        replaceList old new (a' ++ rest) := rfl
    rw [hstep, ih rest fun i hi => by
      have := h (i + 1) (by simp; omega)
      rwa [List.cons_append, List.drop_succ_cons] at this]
    rw [List.cons_append]

theorem replaceList_at_match (old new rest : PyStr) (hne : old ≠ []) :
    replaceList old new (old ++ rest) = new ++ replaceList old new rest := by
  cases hold : old with
  | nil => exact absurd hold hne
  | cons o os =>
    rw [← hold, replaceList]
    have hlen : (old ++ rest).length = (old.length - 1 + rest.length) + 1 := by
      rw [List.length_append]
      have : 1 ≤ old.length := List.length_pos.mpr hne
      omega
    rw [hlen]
    have hcons : old ++ rest = o :: (os ++ rest) := by rw [hold, List.cons_append]
    rw [hcons]
    simp only [replaceFuel]
    rw [if_pos (by
      rw [← hcons]
      simp only [Bool.and_eq_true, decide_eq_true_eq]
      exact ⟨hne, (isPrefixOf_iff old (old ++ rest)).mpr ⟨rest, rfl⟩⟩)]
    congr 1
    have hdrop : (o :: (os ++ rest)).drop old.length = rest := by
      rw [← List.cons_append, ← hold, List.drop_left]
    rw [hdrop]
    exact replaceFuel_congr old new rest.length rest (le_refl _) _ _
      (by rw [hold]; simp) (le_refl _)

theorem replaceList_id (old new : PyStr) (l : PyStr)
    (h : ∀ i, i < l.length → old.isPrefixOf (l.drop i) = false) :
    replaceList old new l = l := by
  have h2 := replaceList_copy old new l [] (by simpa using h)
  have h0 : replaceList old new [] = [] := rfl
  rw [List.append_nil] at h2
  rw [h2, h0, List.append_nil]

/-- If the separator contains no whitespace and does not occur inside
`ctx`, then no occurrence of it starts inside `ctx` in `ctx ++ ' ' :: rest`
(it can neither fit inside `ctx` nor straddle into the following space). -/
theorem no_prefix_inside_context (pat ctx rest : PyStr) (hne : pat ≠ [])
    (hsp : ∀ ch ∈ pat, pyIsSpace ch = false) (hocc : occursB pat ctx = false) :
    ∀ i, i < ctx.length → pat.isPrefixOf ((ctx ++ ' ' :: rest).drop i) = false := by
  intro i hi
  by_contra hcon
  rw [Bool.not_eq_false] at hcon
  obtain ⟨t, ht⟩ := (isPrefixOf_iff _ _).mp hcon
  by_cases hfit : i + pat.length ≤ ctx.length
  · have hd : (ctx ++ ' ' :: rest).drop i = ctx.drop i ++ ' ' :: rest :=
      List.drop_append_of_le_length (le_of_lt hi)
    rw [hd] at ht
    have hlen : pat.length ≤ (ctx.drop i).length := by
      simp only [List.length_drop]; omega
    have htake := congrArg (fun l => l.take pat.length) ht
    simp only [List.take_append_of_le_length hlen, List.take_left] at htake
    have hsplit2 : ctx.drop i = pat ++ (ctx.drop i).drop pat.length := by
      conv_lhs => rw [← List.take_append_drop pat.length (ctx.drop i)]
      rw [htake]
    have hctx : ctx = ctx.take i ++ pat ++ (ctx.drop i).drop pat.length := by
      rw [List.append_assoc, ← hsplit2]
      exact (List.take_append_drop i ctx).symm
    have htrue := occursB_true_of_parts pat (ctx.take i) ((ctx.drop i).drop pat.length)
    rw [← hctx] at htrue
    rw [htrue] at hocc
    simp at hocc
  · push_neg at hfit
    have hjlt : ctx.length - i < pat.length := by omega
    have hidx : ((ctx ++ ' ' :: rest).drop i)[ctx.length - i]? = (pat ++ t)[ctx.length - i]? := by
      rw [ht]
    rw [List.getElem?_drop] at hidx
    have hij : i + (ctx.length - i) = ctx.length := by omega
    rw [hij] at hidx
    have hL : (ctx ++ ' ' :: rest)[ctx.length]? = some ' ' := by
      rw [List.getElem?_append_right (le_refl _)]
      simp
    have hR : (pat ++ t)[ctx.length - i]? = pat[ctx.length - i]? :=
      List.getElem?_append_left hjlt
    rw [hL, hR] at hidx
    have hmem : ' ' ∈ pat := by
      rcases List.getElem?_eq_some.mp hidx.symm with ⟨hlt, hval⟩
      exact hval ▸ List.getElem_mem hlt
    have := hsp ' ' hmem
    simp [pyIsSpace] at this

/-- Replacing the separator by a single space in the separator-joined text
yields the three-space join of the passages, provided the separator is
non-empty, whitespace-free, and occurs in no passage. -/
theorem replace_joinWith (sep : PyStr) (hne : sep ≠ [])
    (hsp : ∀ ch ∈ sep, pyIsSpace ch = false) :
    ∀ (cs : List PyStr), (∀ c ∈ cs, occursB sep c = false) →
    replaceList sep [' '] (joinWith (sepFull sep) cs) = joinWith [' ', ' ', ' '] cs := by
  intro cs
  induction cs with
  | nil => intro _; rfl
  | cons c cs ih =>
    intro hcs
    have hc : occursB sep c = false := hcs c (List.mem_cons_self _ _)
    cases cs with
    | nil =>
      simp only [joinWith, tailCat, List.append_nil]
      exact replaceList_id sep [' '] c (occursB_false_prefixes sep c hc)
    | cons c2 cs2 =>
      have hshape : joinWith (sepFull sep) (c :: c2 :: cs2) =
          c ++ ' ' :: (sep ++ ' ' :: joinWith (sepFull sep) (c2 :: cs2)) := by
        simp [joinWith, tailCat, sepFull, List.append_assoc]
      rw [hshape]
      rw [replaceList_copy sep [' '] c (' ' :: (sep ++ ' ' :: joinWith (sepFull sep) (c2 :: cs2)))
        (no_prefix_inside_context sep c _ hne hsp hc)]
      have hsep0 : ∀ i, i < ([' '] : PyStr).length →
          sep.isPrefixOf (([' '] ++ (sep ++ ' ' :: joinWith (sepFull sep) (c2 :: cs2))).drop i) =
            false := by
        intro i hilt
        have hi0 : i = 0 := by simpa using hilt
        subst hi0
        rw [List.drop_zero]
        cases hsep : sep with
        | nil => exact absurd hsep hne
        | cons s0 ss =>
          have hs0 : pyIsSpace s0 = false := by
            rw [hsep] at hsp
            exact hsp s0 (List.mem_cons_self _ _)
          have hs0' : s0 ≠ ' ' := by
            intro hcontra
            rw [hcontra] at hs0
            simp [pyIsSpace] at hs0
          simp [List.isPrefixOf, List.singleton_append, hs0']
      rw [show (' ' :: (sep ++ ' ' :: joinWith (sepFull sep) (c2 :: cs2))) =
          [' '] ++ (sep ++ ' ' :: joinWith (sepFull sep) (c2 :: cs2)) from rfl,
        replaceList_copy sep [' '] [' '] _ hsep0,
        replaceList_at_match sep [' '] _ hne]
      have hsep1 : ∀ i, i < ([' '] : PyStr).length →
          sep.isPrefixOf (([' '] ++ joinWith (sepFull sep) (c2 :: cs2)).drop i) = false := by
        intro i hilt
        have hi0 : i = 0 := by simpa using hilt
        subst hi0
        rw [List.drop_zero]
        cases hsep : sep with
        | nil => exact absurd hsep hne
        | cons s0 ss =>
          have hs0 : pyIsSpace s0 = false := by
            rw [hsep] at hsp
            exact hsp s0 (List.mem_cons_self _ _)
          have hs0' : s0 ≠ ' ' := by
            intro hcontra
            rw [hcontra] at hs0
            simp [pyIsSpace] at hs0
          simp [List.isPrefixOf, List.singleton_append, hs0']
      rw [show (' ' :: joinWith (sepFull sep) (c2 :: cs2)) =
          [' '] ++ joinWith (sepFull sep) (c2 :: cs2) from rfl,
        replaceList_copy sep [' '] [' '] _ hsep1,
        ih fun x hx => hcs x (List.mem_cons_of_mem _ hx)]
      simp [joinWith, tailCat, List.append_assoc]

/-- C4 (amended): every `retention_ratio` computed by
`analyze_context_retention` lies in `[0, 1]`; if none of a passage's
sliced words occurs (case-insensitively) in the cleaned compressed word
list, the ratio is `0`; and when the compressed text equals the original
text AND the original text and spans come from
`prepare_contexts_with_separators` on the passages — with a separator that
is non-empty, whitespace-free, and not occurring in any passage — the
ratio is `1` for every passage that contains at least one word (an empty
or all-whitespace passage gets ratio `0`, not `1`, which is what the
counterexample exhibits). -/
theorem c4_retention_ratio_bounds :
    (∀ (sep orig comp : PyStr) (positions : List (Nat × Nat)),
      ∀ st ∈ analyze_context_retention sep orig comp positions,
      0 ≤ ContextStat.retention_ratio_q st ∧ ContextStat.retention_ratio_q st ≤ 1) ∧
    (∀ (sep orig comp : PyStr) (positions : List (Nat × Nat)) (k : Nat),
      k < positions.length →
      (∀ w ∈ splitWs ((orig.drop (positions.getD k (0, 0)).1).take
          ((positions.getD k (0, 0)).2 - (positions.getD k (0, 0)).1)),
        ((splitWs (pyStrip (replaceList sep [' '] comp))).map pyLower).contains
          (pyLower w) = false) →
      ContextStat.retention_ratio_q
        ((analyze_context_retention sep orig comp positions).getD k ⟨0, 0, 0⟩) = 0) ∧
    (∀ (sep : PyStr) (contexts : List PyStr) (k : Nat), sep ≠ [] →
      (∀ ch ∈ sep, pyIsSpace ch = false) →
      (∀ c ∈ contexts, occursB sep c = false) →
      k < contexts.length →
      splitWs (contexts.getD k []) ≠ [] →
      ContextStat.retention_ratio_q
        ((analyze_context_retention sep
          (prepare_contexts_with_separators sep contexts).1
          (prepare_contexts_with_separators sep contexts).1
          (prepare_contexts_with_separators sep contexts).2).getD k ⟨0, 0, 0⟩) = 1) := by
  refine ⟨fun sep orig comp positions st hst => ?_, fun sep orig comp positions k hk hnone => ?_,
    fun sep cs k hne hsp hocc hk hwne => ?_⟩
  · simp only [analyze_context_retention, List.mem_map] at hst
    obtain ⟨se, _, rfl⟩ := hst
    simp only [ContextStat.retention_ratio_q]
    constructor
    · apply div_nonneg <;> positivity
    · apply div_le_one_of_le₀
      · have hle : ((splitWs ((orig.drop se.1).take (se.2 - se.1))).filter fun w =>
            ((splitWs (pyStrip (replaceList sep [' '] comp))).map pyLower).contains
              (pyLower w)).length ≤
            (splitWs ((orig.drop se.1).take (se.2 - se.1))).length :=
          List.length_filter_le _ _
        exact_mod_cast le_trans hle (le_max_left _ 1)
      · positivity
  · have hklen : k < (analyze_context_retention sep orig comp positions).length := by
      simp [analyze_context_retention]; exact hk
    rw [List.getD_eq_getElem _ _ hklen]
    rw [List.getD_eq_getElem _ _ hk] at hnone
    simp only [analyze_context_retention, List.getElem_map]
    have hfilter : (splitWs ((orig.drop positions[k].1).take
        (positions[k].2 - positions[k].1))).filter (fun w =>
          ((splitWs (pyStrip (replaceList sep [' '] comp))).map pyLower).contains
            (pyLower w)) = [] := by
      rw [List.filter_eq_nil_iff]
      intro w hw
      rw [hnone w hw]
      simp
    simp only [ContextStat.retention_ratio_q, hfilter, List.length_nil, Nat.cast_zero, zero_div]
  · have hklen : k < (fullSpans (sepFull sep).length cs).length := by
      rw [fullSpans_length]; exact hk
    have hslice := fullSpans_slice (sepFull sep) cs k hk
    rw [List.getD_eq_getElem _ _ hklen] at hslice
    have hrepl : replaceList sep [' '] (joinWith (sepFull sep) cs) =
        joinWith [' ', ' ', ' '] cs := replace_joinWith sep hne hsp cs hocc
    have hmaplen : k < ((fullSpans (sepFull sep).length cs).map
        (fun se => se)).length := by simpa using hklen
    simp only [prepare_eq]
    have hklen2 : k < (analyze_context_retention sep (joinWith (sepFull sep) cs)
        (joinWith (sepFull sep) cs) (fullSpans (sepFull sep).length cs)).length := by
      simp [analyze_context_retention]; exact hklen
    rw [List.getD_eq_getElem _ _ hklen2]
    simp only [analyze_context_retention, List.getElem_map, ContextStat.retention_ratio_q]
    rw [hslice, hrepl, splitWs_pyStrip, splitWs_joinWith3]
    have hall : ∀ w ∈ splitWs (cs.getD k []),
        (((cs.map splitWs).flatten.map pyLower).contains (pyLower w)) = true := by
      intro w hw
      have hmem1 : splitWs (cs.getD k []) ∈ cs.map splitWs := by
        rw [List.getD_eq_getElem _ _ hk]
        exact List.mem_map_of_mem splitWs (List.getElem_mem hk)
      have hmem2 : w ∈ (cs.map splitWs).flatten := List.mem_flatten.mpr ⟨_, hmem1, hw⟩
      have hmem3 : pyLower w ∈ (cs.map splitWs).flatten.map pyLower :=
        List.mem_map_of_mem pyLower hmem2
      simpa [List.contains] using hmem3
    rw [List.filter_eq_self.mpr hall]
    have hn : 1 ≤ (splitWs (cs.getD k [])).length := List.length_pos.mpr hwne
    rw [Nat.max_eq_left hn]
    rw [div_self]
    exact Nat.cast_ne_zero.mpr (by omega)

/-- C4 counterexample: with the span mapping `{0 ↦ (0, 0)}` and identical
original and compressed texts (both empty), the passage's
`retention_ratio` is `0`, not `1` — the identical-text part of the claim
fails for a passage with no words. -/
theorem c4_counterexample :
    (analyze_context_retention (pystr "<s>") [] [] [(0, 0)] =
      [{ original_length := 0, retained_count := 0, retention_ratio_q := 0 }]) ∧
    ((ContextStat.retention_ratio_q
        ((analyze_context_retention (pystr "<s>") [] [] [(0, 0)]).getD 0 ⟨0, 0, 0⟩) = 1) =
      False) := by
  have hraw : analyze_context_retention (pystr "<s>") [] [] [(0, 0)] =
      [{ original_length := 0, retained_count := 0,
         retention_ratio_q := ((0 : Nat) : ℚ) / ((max (0 : Nat) 1 : Nat) : ℚ) }] := rfl
  constructor
  · rw [hraw]
    norm_num
  · refine eq_false ?_
    rw [hraw]
    simp only [List.getD_cons_zero]
    norm_num

/-- Witness for C4: with separator `"#"` and passages `["ab", "cd"]`
(where the separator occurs in no passage and each passage has a word),
identical original/compressed text gives ratio `1` for passage 0. -/
theorem c4_witness :
    ContextStat.retention_ratio_q
      ((analyze_context_retention (pystr "#")
        (prepare_contexts_with_separators (pystr "#") [pystr "ab", pystr "cd"]).1
        (prepare_contexts_with_separators (pystr "#") [pystr "ab", pystr "cd"]).1
        (prepare_contexts_with_separators (pystr "#") [pystr "ab", pystr "cd"]).2).getD 0
        ⟨0, 0, 0⟩) = 1 :=
  c4_retention_ratio_bounds.2.2 (pystr "#") [pystr "ab", pystr "cd"] 0 (by decide) (by decide)
    (by decide) (by decide) (by decide)
